import Mathlib

/-!
Verification development for the funkybit `api-client-ts` quote engine.

This file gives a shallow embedding of the pure quote-computation core
(`src/fees.ts`, `src/utils.ts`, `src/clob.ts`, `src/quotes.ts`) and proves
properties of it.

Modelling conventions:
* JavaScript `bigint` values are modelled as `ℤ`.  JS `bigint` division
  truncates toward zero, which is `Int.tdiv`.
* `Decimal` (decimal.js) values are modelled as exact rationals `ℚ`.
  decimal.js computes with a very large configurable precision; the
  embedding treats its `mul`/`div`/`add`/`sub`/`abs`/`neg`/`floor`/`ceil`
  as exact rational operations.  `Decimal.div` by zero yields `Infinity`
  in JS while `ℚ` division by zero yields `0`; theorems below always put
  the relevant divisors in a regime where the divisor is nonzero, or are
  insensitive to the quotient value.
* A JS function that can throw (BigInt division by zero) or return `null`
  is modelled with `Option`.
-/

/-- MarketSymbol reference data (`types.ts`); only the `decimals` field is used by
the quote engine. -/
structure MarketSymbol where
  decimals : ℕ
deriving DecidableEq

/-- Market descriptor with embedded symbol infos (`types.ts`
`MarketWithSymbolInfos`); fields other than the two symbols are not used by
the quote engine. -/
structure MarketWithSymbolInfos where
  baseSymbol : MarketSymbol
  quoteSymbol : MarketSymbol
deriving DecidableEq

/-- Maker/taker fee rates in parts-per-million (`types.ts` `FeeRates`). -/
structure FeeRates where
  maker : ℤ
  taker : ℤ
deriving DecidableEq

/-- Order side (`types.ts` `OrderSide`). -/
inductive OrderSide where
  | Buy
  | Sell
deriving DecidableEq

/-- One order-book level (`websocketMessages.ts` `OrderBookEntry`): `price`
is a decimal string and `size` a `Decimal`; both are modelled as the exact
rational numbers those decimals denote. -/
structure OrderBookEntry where
  price : ℚ
  size : ℚ
deriving DecidableEq

/-- Order-book snapshot (`websocketMessages.ts` `OrderBook`): `buy` lists
bids best/highest price first, `sell` lists asks best/lowest first.  The
`last` trade marker is not used by the quote engine. -/
structure OrderBook where
  buy : List OrderBookEntry
  sell : List OrderBookEntry
deriving DecidableEq

/-- Constant-product pool state (`websocketMessages.ts`
`LiquidityPoolState`); `feeRate` is a `Decimal` fraction. -/
structure LiquidityPoolState where
  baseLiquidity : ℤ
  quoteLiquidity : ℤ
  feeRate : ℚ
deriving DecidableEq

/-- Bonding-curve state (`websocketMessages.ts` `BondingCurveAmmState`);
`graduationStatus` is not used by the quote engine. -/
structure BondingCurveAmmState where
  realBaseReserves : ℤ
  virtualBaseReserves : ℤ
  virtualQuoteReserves : ℤ
  feeRate : ℚ
deriving DecidableEq

/-- Multi-pool AMM state (`websocketMessages.ts` `ConstantProductAmmState`). -/
structure ConstantProductAmmState where
  liquidityPools : List LiquidityPoolState
deriving DecidableEq

/-- Tagged union of the two AMM variants (`websocketMessages.ts` `AmmState`). -/
inductive AmmState where
  | BondingCurve (s : BondingCurveAmmState)
  | ConstantProduct (s : ConstantProductAmmState)
deriving DecidableEq

/-- The inline `{ baseDecimals; quoteDecimals }` market parameter of
`baseAmountToReceiveForSellingQuoteIncludingFee` (`quotes.ts`). -/
structure MarketDecimals where
  baseDecimals : ℕ
  quoteDecimals : ℕ
deriving DecidableEq

/-! ## fees.ts -/

/-- `FEE_RATE_PIPS_MAX_VALUE` from `fees.ts`: 1,000,000 pips = 100%. -/
def FEE_RATE_PIPS_MAX_VALUE : ℤ := 1000000

/-- `feeRateToBigInt` from `fees.ts`, `Decimal` branch: a decimal fee-rate
fraction is rescaled to pips by `floor(1e6 * rate)`. -/
def feeRateToBigIntOfDecimal (feeRate : ℚ) : ℤ :=
  ⌊(1000000 : ℚ) * feeRate⌋

/-- `calculateFee` from `fees.ts` with an integer-pips fee rate:
`(notional * feeRatePips) / 1_000_000` with bigint (truncating) division. -/
def calculateFee (notional feeRatePips : ℤ) : ℤ :=
  Int.tdiv (notional * feeRatePips) FEE_RATE_PIPS_MAX_VALUE

/-- `calculateFee` from `fees.ts` with a `Decimal` fee rate. -/
def calculateFeeDecimal (notional : ℤ) (feeRate : ℚ) : ℤ :=
  calculateFee notional (feeRateToBigIntOfDecimal feeRate)

/-- `adjustQuoteToExcludeFee` from `fees.ts` with an integer-pips fee rate:
`(notional * 1_000_000) / (1_000_000 + feeRatePips)`. -/
def adjustQuoteToExcludeFee (notional feeRatePips : ℤ) : ℤ :=
  Int.tdiv (notional * FEE_RATE_PIPS_MAX_VALUE) (FEE_RATE_PIPS_MAX_VALUE + feeRatePips)

/-- `adjustQuoteToExcludeFee` from `fees.ts` with a `Decimal` fee rate. -/
def adjustQuoteToExcludeFeeDecimal (notional : ℤ) (feeRate : ℚ) : ℤ :=
  adjustQuoteToExcludeFee notional (feeRateToBigIntOfDecimal feeRate)

/-- `adjustQuoteToIncludeFee` from `fees.ts`:
`(quoteAmount * 1_000_000) / (1_000_000 - feeRatePips)`.  The total
function; JS BigInt division by a zero divisor throws instead (see
`adjustQuoteToIncludeFeeChecked`). -/
def adjustQuoteToIncludeFee (quoteAmount feeRatePips : ℤ) : ℤ :=
  Int.tdiv (quoteAmount * FEE_RATE_PIPS_MAX_VALUE) (FEE_RATE_PIPS_MAX_VALUE - feeRatePips)

/-- Exception-aware model of `adjustQuoteToIncludeFee`: JS BigInt division
throws a `RangeError` exactly when the divisor `1_000_000 - feeRatePips` is
zero; `none` models the thrown exception. -/
def adjustQuoteToIncludeFeeChecked (quoteAmount feeRatePips : ℤ) : Option ℤ :=
  if FEE_RATE_PIPS_MAX_VALUE - feeRatePips = 0 then none
  else some (adjustQuoteToIncludeFee quoteAmount feeRatePips)

/-! ## utils.ts -/

/-- `bigintToScaledDecimal` from `utils.ts`: `bi / 10^decimals` as an exact
decimal. -/
def bigintToScaledDecimal (bi : ℤ) (decimals : ℕ) : ℚ :=
  (bi : ℚ) / (10 : ℚ) ^ decimals

/-- `scaledDecimalToBigint` from `utils.ts` in its default (`round = false`)
branch, the only branch used by the quote engine: `floor(sd * 10^decimals)`.
`Decimal.floor` rounds toward negative infinity, matching `Int.floor`. -/
def scaledDecimalToBigint (sd : ℚ) (decimals : ℕ) : ℤ :=
  ⌊sd * (10 : ℚ) ^ decimals⌋

/-- `calculateNotional` from `utils.ts`:
`(price * baseAmount) / 10^baseSymbol.decimals` with bigint division. -/
def calculateNotional (price baseAmount : ℤ) (baseSymbol : MarketSymbol) : ℤ :=
  Int.tdiv (price * baseAmount) ((10 : ℤ) ^ baseSymbol.decimals)

/-- `minBigInt` from `utils.ts`. -/
def minBigInt (a b : ℤ) : ℤ :=
  if a ≤ b then a else b

/-- `absBigInt` from `utils.ts`. -/
def absBigInt (value : ℤ) : ℤ :=
  if value < 0 then -value else value

/-! ## clob.ts -/

/-- viem `parseUnits`: a decimal value scaled to an integer with `decimals`
fractional digits.  The clob code calls it on level sizes printed with 36
decimal places and on price strings; for the exact decimal inputs in scope
the result is `floor(value * 10^decimals)`. -/
def parseUnits (value : ℚ) (decimals : ℕ) : ℤ :=
  ⌊value * (10 : ℚ) ^ decimals⌋

/-- An order-book level after the scaling done at the top of each clob.ts
walker: `size` in base fundamental units, `price` in quote fundamental
units. -/
structure ClobLevel where
  size : ℤ
  price : ℤ
deriving DecidableEq

/-- The per-level scaling map shared by the clob.ts walkers. -/
def parseLevel (market : MarketWithSymbolInfos) (l : OrderBookEntry) : ClobLevel :=
  { size := parseUnits l.size market.baseSymbol.decimals
    price := parseUnits l.price market.quoteSymbol.decimals }

/-- `baseAmountFromNotionalAndPrice` from `clob.ts`:
`notional / price * 10^baseSymbol.decimals`, rounded up or down.  (The JS
code routes the rounded `Decimal` through `toNumber()`; the embedding keeps
the exact value.)  `roundUp = true` is the `"Up"` rounding mode. -/
def baseAmountFromNotionalAndPrice (notional price : ℤ) (baseSymbol : MarketSymbol)
    (roundUp : Bool) : ℤ :=
  let notionalDividedByPrice : ℚ :=
    (notional : ℚ) / (price : ℚ) * ((10 : ℚ) ^ baseSymbol.decimals)
  if roundUp then ⌈notionalDividedByPrice⌉ else ⌊notionalDividedByPrice⌋

/-- The `while` loop of `baseAmountToSellToGetQuoteAmountAtClobMarket`.
The JS loop pops levels from the END of its `levels` array; popping from
the end of a list is consuming the reverse of that list from its head,
which is how the caller below invokes this loop. -/
def baseAmountToSellWalk (market : MarketWithSymbolInfos) :
    List ClobLevel → ℤ → ℤ → Option ℤ
  | [], remainingQuote, baseAmount =>
    if 0 < remainingQuote then none else some baseAmount
  | level :: rest, remainingQuote, baseAmount =>
    let notionalAtLevel := calculateNotional level.price level.size market.baseSymbol
    if remainingQuote ≤ notionalAtLevel then
      some (baseAmount +
        baseAmountFromNotionalAndPrice remainingQuote level.price market.baseSymbol true)
    else
      baseAmountToSellWalk market rest (remainingQuote - notionalAtLevel)
        (baseAmount + level.size)

/-- `baseAmountToSellToGetQuoteAmountAtClobMarket` from `clob.ts`: the
`levels` array is `orderBook.buy.toReversed()` (modelled by
`orderBook.buy.reverse`), and the loop pops from the end of that array
(modelled by walking its `List.reverse` head-first). -/
def baseAmountToSellToGetQuoteAmountAtClobMarket (quoteAmount : ℤ)
    (market : MarketWithSymbolInfos) (orderBook : OrderBook)
    (feeRates : FeeRates) : Option ℤ :=
  let levels := (orderBook.buy.reverse).map (parseLevel market)
  baseAmountToSellWalk market levels.reverse
    (adjustQuoteToIncludeFee quoteAmount feeRates.taker) 0

/-- The `while` loop of `baseAmountToGetForQuoteAmountAtClobMarket`;
same pop-from-the-end convention as `baseAmountToSellWalk`. -/
def baseAmountToGetWalk (market : MarketWithSymbolInfos) :
    List ClobLevel → ℤ → ℤ → Option ℤ
  | [], remainingQuote, baseAmount =>
    if 0 < remainingQuote then none else some baseAmount
  | level :: rest, remainingQuote, baseAmount =>
    let notionalAtLevel := calculateNotional level.price level.size market.baseSymbol
    if remainingQuote ≤ notionalAtLevel then
      some (baseAmount +
        baseAmountFromNotionalAndPrice remainingQuote level.price market.baseSymbol false)
    else
      baseAmountToGetWalk market rest (remainingQuote - notionalAtLevel)
        (baseAmount + level.size)

/-- `baseAmountToGetForQuoteAmountAtClobMarket` from `clob.ts`: the
`levels` array is `orderBook.sell` (no reversal), popped from its end. -/
def baseAmountToGetForQuoteAmountAtClobMarket (quoteAmount : ℤ)
    (market : MarketWithSymbolInfos) (orderBook : OrderBook)
    (feeRates : FeeRates) : Option ℤ :=
  let levels := orderBook.sell.map (parseLevel market)
  baseAmountToGetWalk market levels.reverse
    (adjustQuoteToExcludeFee quoteAmount feeRates.taker) 0

/-- The `while` loop of `quoteAmountToGetFromSellingBaseAmountAtClobMarket`,
returning the gross quote amount accumulated; the `break` with
`remainingBaseAmount = 0` and the normal fall-through both continue to the
common post-loop fee deduction done by the caller.  Returns `none` when the
book is exhausted with base amount left over. -/
def quoteAmountFromSellingWalk (market : MarketWithSymbolInfos) :
    List ClobLevel → ℤ → ℤ → Option ℤ
  | [], remainingBaseAmount, quoteAmount =>
    if 0 < remainingBaseAmount then none else some quoteAmount
  | level :: rest, remainingBaseAmount, quoteAmount =>
    if level.size < remainingBaseAmount then
      quoteAmountFromSellingWalk market rest (remainingBaseAmount - level.size)
        (quoteAmount + calculateNotional level.price level.size market.baseSymbol)
    else
      some (quoteAmount + calculateNotional level.price remainingBaseAmount market.baseSymbol)

/-- `quoteAmountToGetFromSellingBaseAmountAtClobMarket` from `clob.ts`:
walks `orderBook.buy.toReversed()` popped from its end, then deducts the
taker fee from the gross proceeds. -/
def quoteAmountToGetFromSellingBaseAmountAtClobMarket (baseAmount : ℤ)
    (market : MarketWithSymbolInfos) (orderBook : OrderBook)
    (feeRates : FeeRates) : Option ℤ :=
  let levels := (orderBook.buy.reverse).map (parseLevel market)
  match quoteAmountFromSellingWalk market levels.reverse baseAmount 0 with
  | none => none
  | some quoteAmount => some (quoteAmount - calculateFee quoteAmount feeRates.taker)

/-! ## quotes.ts -/

/-- `AdapterMarketState` from `quotes.ts`. -/
structure AdapterMarketState where
  market : MarketWithSymbolInfos
  orderBook : OrderBook
  feeRates : FeeRates
deriving DecidableEq

/-- `bondingCurveCostFor` from `quotes.ts`:
`|amount| * (virtualQuote / (virtualBase - amount)) + 1·10^(-baseDecimals)`,
floored to the quote asset's precision.  Note that the `+1` increment added
before flooring is one smallest BASE-asset unit
(`bigintToScaledDecimal(1n, market.baseSymbol.decimals)`). -/
def bondingCurveCostFor (amount : ℚ) (market : MarketWithSymbolInfos)
    (bondingCurve : BondingCurveAmmState) : ℤ :=
  let virtualQuoteReserves :=
    bigintToScaledDecimal bondingCurve.virtualQuoteReserves market.quoteSymbol.decimals
  let virtualBaseReserves :=
    bigintToScaledDecimal bondingCurve.virtualBaseReserves market.baseSymbol.decimals
  scaledDecimalToBigint
    (|amount| * (virtualQuoteReserves / (virtualBaseReserves + -amount)) +
      bigintToScaledDecimal 1 market.baseSymbol.decimals)
    market.quoteSymbol.decimals

/-- `LiquidityPoolTradeEstimate` from `quotes.ts`. -/
structure LiquidityPoolTradeEstimate where
  pool : LiquidityPoolState
  baseAmount : ℤ
  notional : ℤ
  fee : ℤ
  side : OrderSide
deriving DecidableEq

/-- `LiquidityAdjustmentEstimate` from `quotes.ts`. -/
structure LiquidityAdjustmentEstimate where
  baseDelta : ℤ
  quoteDelta : ℤ
  fee : ℤ
deriving DecidableEq

/-- `estimatePoolBaseLiquidityAdjustment` from `quotes.ts`. -/
def estimatePoolBaseLiquidityAdjustment (lp : LiquidityPoolState)
    (baseDelta : ℤ) : Option LiquidityAdjustmentEstimate :=
  let newBaseLiquidity := lp.baseLiquidity + baseDelta
  if newBaseLiquidity ≤ 0 then none
  else
    let product := lp.baseLiquidity * lp.quoteLiquidity
    let newQuoteLiquidity := Int.tdiv product newBaseLiquidity
    if newQuoteLiquidity = 0 then none
    else
      let quoteDelta := newQuoteLiquidity - lp.quoteLiquidity + 1
      some { baseDelta := baseDelta
             quoteDelta := quoteDelta
             fee := calculateFeeDecimal quoteDelta lp.feeRate }

/-- The candidate-trade list built by the `forEach` of
`getCpBestBuyEstimate`, in pool order. -/
def cpPossibleBuyTrades (buyAmount : ℤ) (ammState : ConstantProductAmmState) :
    List LiquidityPoolTradeEstimate :=
  ammState.liquidityPools.filterMap fun pool =>
    (estimatePoolBaseLiquidityAdjustment pool (-buyAmount)).map fun estimate =>
      { pool := pool
        baseAmount := absBigInt estimate.baseDelta
        notional := estimate.quoteDelta
        fee := estimate.fee
        side := OrderSide.Buy }

/-- `getCpBestBuyEstimate` from `quotes.ts`: start from the first candidate
and replace it whenever a later candidate has strictly smaller
`notional + fee`. -/
def getCpBestBuyEstimate (buyAmount : ℤ) (ammState : ConstantProductAmmState) :
    Option LiquidityPoolTradeEstimate :=
  match cpPossibleBuyTrades buyAmount ammState with
  | [] => none
  | t0 :: rest =>
    some ((t0 :: rest).foldl
      (fun bestTrade trade =>
        if trade.notional + trade.fee < bestTrade.notional + bestTrade.fee
        then trade else bestTrade) t0)

/-- The candidate-trade list built by the `forEach` of
`getCpBestSellEstimate`, in pool order. -/
def cpPossibleSellTrades (sellAmount : ℤ) (ammState : ConstantProductAmmState) :
    List LiquidityPoolTradeEstimate :=
  ammState.liquidityPools.filterMap fun pool =>
    (estimatePoolBaseLiquidityAdjustment pool sellAmount).map fun estimate =>
      { pool := pool
        baseAmount := estimate.baseDelta
        notional := absBigInt estimate.quoteDelta
        fee := absBigInt estimate.fee
        side := OrderSide.Sell }

/-- `getCpBestSellEstimate` from `quotes.ts`: start from the first candidate
and replace it whenever a later candidate's `notional + fee` strictly
exceeds the incumbent's `notional - fee` (this asymmetric comparison is
exactly what the source performs). -/
def getCpBestSellEstimate (sellAmount : ℤ) (ammState : ConstantProductAmmState) :
    Option LiquidityPoolTradeEstimate :=
  match cpPossibleSellTrades sellAmount ammState with
  | [] => none
  | t0 :: rest =>
    some ((t0 :: rest).foldl
      (fun bestTrade trade =>
        if bestTrade.notional - bestTrade.fee < trade.notional + trade.fee
        then trade else bestTrade) t0)

/-- The midpoint computation of the binary-search loop in
`baseAmountToRemoveToIncreasePoolQuoteByDelta`: `(left + right) / 2n`. -/
def bsLoopMiddle (left right : ℤ) : ℤ :=
  Int.tdiv (left + right) 2

/-- Bounds used for the binary-search termination measure: a truncating
halving is within one of the exact half. -/
theorem tdiv_two_bounds (x : ℤ) :
    x - 1 ≤ 2 * Int.tdiv x 2 ∧ 2 * Int.tdiv x 2 ≤ x + 1 := by
  rcases le_or_lt 0 x with hx | hx
  · rw [Int.tdiv_eq_ediv hx (by norm_num)]
    omega
  · have h : Int.tdiv x 2 = -Int.tdiv (-x) 2 := by
      rw [← Int.neg_tdiv, neg_neg]
    rw [h, Int.tdiv_eq_ediv (by omega) (by norm_num)]
    omega

/-- The `while (right - left > 1n)` loop of
`baseAmountToRemoveToIncreasePoolQuoteByDelta` from `quotes.ts`.
`lastAcceptable` is the mutable `lastAcceptableEstimate`; returning `none`
models the `return null` taken when a probed adjustment is infeasible, and
the `quoteDelta == target` branch models the `break` (after which the
function returns the estimate just stored). -/
def bsLoop (lp : LiquidityPoolState) (target left right : ℤ)
    (lastAcceptable : Option LiquidityAdjustmentEstimate) :
    Option LiquidityAdjustmentEstimate :=
  if 1 < right - left then
    let middle := bsLoopMiddle left right
    match estimatePoolBaseLiquidityAdjustment lp (-middle) with
    | none => none
    | some estimate =>
      if estimate.quoteDelta = target then some estimate
      else if estimate.quoteDelta < target then
        bsLoop lp target middle right (some estimate)
      else
        bsLoop lp target left middle lastAcceptable
  else lastAcceptable
termination_by (right - left).toNat
decreasing_by
  · have h1 := tdiv_two_bounds (left + right)
    simp only [bsLoopMiddle] at *
    omega
  · have h1 := tdiv_two_bounds (left + right)
    simp only [bsLoopMiddle] at *
    omega

/-- `baseAmountToRemoveToIncreasePoolQuoteByDelta` from `quotes.ts`. -/
def baseAmountToRemoveToIncreasePoolQuoteByDelta (lp : LiquidityPoolState)
    (quoteDelta : ℤ) : Option ℤ :=
  let newQuoteLiquidity := lp.quoteLiquidity + quoteDelta
  let product := lp.baseLiquidity * lp.quoteLiquidity
  let newBaseLiquidity := Int.tdiv product newQuoteLiquidity
  if newBaseLiquidity = 0 then none
  else
    let baseDeltaRoughEstimate := newBaseLiquidity - lp.baseLiquidity
    match estimatePoolBaseLiquidityAdjustment lp baseDeltaRoughEstimate with
    | none => none
    | some roughEstimate =>
      let actualQuoteDelta := roughEstimate.quoteDelta
      let roughAbs := absBigInt baseDeltaRoughEstimate
      if actualQuoteDelta = quoteDelta then some roughAbs
      else
        let lr := if actualQuoteDelta < quoteDelta
          then (roughAbs, roughAbs * 2)
          else (Int.tdiv roughAbs 2, roughAbs)
        (bsLoop lp quoteDelta lr.1 lr.2 none).map fun e => absBigInt e.baseDelta

/-- `quoteAmountRequiredForBuyingBaseIncludingFee` from `quotes.ts`. -/
def quoteAmountRequiredForBuyingBaseIncludingFee (baseAmount : ℤ)
    (market : MarketWithSymbolInfos) (ammState : AmmState)
    (adapterMarketState : Option AdapterMarketState) : Option ℤ :=
  if baseAmount = 0 then some 0
  else
    let baseAmountDecimal := bigintToScaledDecimal baseAmount market.baseSymbol.decimals
    let quoteRequiredOpt : Option ℤ :=
      match ammState with
      | AmmState.BondingCurve s =>
        let realBaseReserves := bigintToScaledDecimal s.realBaseReserves market.baseSymbol.decimals
        let safeAmount :=
          if realBaseReserves < baseAmountDecimal then realBaseReserves else baseAmountDecimal
        let cost := bondingCurveCostFor safeAmount market s
        some (cost + calculateFeeDecimal cost s.feeRate)
      | AmmState.ConstantProduct s =>
        match getCpBestBuyEstimate baseAmount s with
        | none => none
        | some bestBuyEstimate => some (bestBuyEstimate.notional + bestBuyEstimate.fee)
    match quoteRequiredOpt with
    | none => none
    | some quoteRequired =>
      match adapterMarketState with
      | some a =>
        baseAmountToSellToGetQuoteAmountAtClobMarket quoteRequired a.market a.orderBook a.feeRates
      | none => some quoteRequired

/-- `quoteAmountMinusFeeToReceiveForSellingBase` from `quotes.ts`. -/
def quoteAmountMinusFeeToReceiveForSellingBase (baseAmount : ℤ)
    (market : MarketWithSymbolInfos) (ammState : AmmState)
    (adapterMarketState : Option AdapterMarketState) : Option ℤ :=
  if baseAmount = 0 then some 0
  else
    let baseAmountDecimal := bigintToScaledDecimal baseAmount market.baseSymbol.decimals
    let quoteToReceiveOpt : Option ℤ :=
      match ammState with
      | AmmState.BondingCurve s =>
        let cost := bondingCurveCostFor (-baseAmountDecimal) market s
        some (cost - calculateFeeDecimal cost s.feeRate)
      | AmmState.ConstantProduct s =>
        match getCpBestSellEstimate baseAmount s with
        | none => none
        | some bestSellEstimate =>
          some (absBigInt (bestSellEstimate.notional - bestSellEstimate.fee))
    match quoteToReceiveOpt with
    | none => none
    | some quoteToReceive =>
      match adapterMarketState with
      | some a =>
        baseAmountToGetForQuoteAmountAtClobMarket quoteToReceive a.market a.orderBook a.feeRates
      | none => some quoteToReceive

/-- `baseAmountToReceiveForSellingQuoteIncludingFee` from `quotes.ts`. -/
def baseAmountToReceiveForSellingQuoteIncludingFee (quoteAmount : ℤ)
    (market : MarketDecimals) (ammState : AmmState)
    (adapterMarketState : Option AdapterMarketState) : Option ℤ :=
  let actualQuoteAmountOpt : Option ℤ :=
    match adapterMarketState with
    | some a =>
      quoteAmountToGetFromSellingBaseAmountAtClobMarket quoteAmount a.market a.orderBook a.feeRates
    | none => some quoteAmount
  match actualQuoteAmountOpt with
  | none => none
  | some actualQuoteAmount =>
    match ammState with
    | AmmState.BondingCurve s =>
      let virtualQuoteReserves := bigintToScaledDecimal s.virtualQuoteReserves market.quoteDecimals
      let virtualBaseReserves := bigintToScaledDecimal s.virtualBaseReserves market.baseDecimals
      let quoteAmountLessFeeDecimal :=
        bigintToScaledDecimal (adjustQuoteToExcludeFeeDecimal actualQuoteAmount s.feeRate)
          market.quoteDecimals
      let newQuoteReserves := virtualQuoteReserves + quoteAmountLessFeeDecimal
      let product := virtualQuoteReserves * virtualBaseReserves
      let newBaseReserves := product / newQuoteReserves
      let rawBase := scaledDecimalToBigint (virtualBaseReserves - newBaseReserves) market.baseDecimals
      some (minBigInt rawBase s.realBaseReserves)
    | AmmState.ConstantProduct s =>
      let largestBaseAmount := s.liquidityPools.foldl
        (fun acc pool =>
          match baseAmountToRemoveToIncreasePoolQuoteByDelta pool
              (adjustQuoteToExcludeFeeDecimal actualQuoteAmount pool.feeRate) with
          | some estimate => if acc < estimate then estimate else acc
          | none => acc) 0
      if largestBaseAmount = 0 then none else some largestBaseAmount

/-! ## Helper lemmas -/

/-- Characterization of `estimatePoolBaseLiquidityAdjustment` results. -/
theorem estimate_eq_some_iff (lp : LiquidityPoolState) (baseDelta : ℤ)
    (e : LiquidityAdjustmentEstimate) :
    estimatePoolBaseLiquidityAdjustment lp baseDelta = some e ↔
      0 < lp.baseLiquidity + baseDelta ∧
      Int.tdiv (lp.baseLiquidity * lp.quoteLiquidity) (lp.baseLiquidity + baseDelta) ≠ 0 ∧
      e = { baseDelta := baseDelta
            quoteDelta := Int.tdiv (lp.baseLiquidity * lp.quoteLiquidity)
                (lp.baseLiquidity + baseDelta) - lp.quoteLiquidity + 1
            fee := calculateFeeDecimal
                (Int.tdiv (lp.baseLiquidity * lp.quoteLiquidity)
                  (lp.baseLiquidity + baseDelta) - lp.quoteLiquidity + 1) lp.feeRate } := by
  unfold estimatePoolBaseLiquidityAdjustment
  dsimp only
  split_ifs with h1 h2
  · simp only [reduceCtorEq, false_iff]
    intro h
    omega
  · simp only [reduceCtorEq, false_iff]
    intro h
    exact h.2.1 h2
  · constructor
    · intro h
      refine ⟨by omega, h2, ?_⟩
      exact (Option.some_inj.mp h).symm
    · intro ⟨ha, hb, hc⟩
      rw [hc]

/-! ## Claim C1 -/

/-- C1 counterexample: at `notional = 1`, `feeRatePips = 999999` the
round trip `adjustQuoteToExcludeFee ∘ adjustQuoteToIncludeFee` yields
500000, which is neither `notional` nor `notional - 1`. -/
theorem feeRoundTrip_cex :
    ¬ (adjustQuoteToExcludeFee (adjustQuoteToIncludeFee 1 999999) 999999 = 1 ∨
       adjustQuoteToExcludeFee (adjustQuoteToIncludeFee 1 999999) 999999 = 1 - 1) := by
  decide

/-- C1 (amended): for non-negative `notional` and `0 ≤ feeRatePips < 1,000,000`
the round trip `adjustQuoteToExcludeFee (adjustQuoteToIncludeFee notional f) f`
is always at least `notional - 1`, and it is at most `notional` provided
`notional · f² < 1,000,000² − f²`; the two-sided containment claimed for all
inputs fails without that size bound. -/
theorem feeRoundTrip_amended (notional feeRatePips : ℤ)
    (hn : 0 ≤ notional) (hf0 : 0 ≤ feeRatePips) (hf : feeRatePips < 1000000) :
    notional - 1 ≤
      adjustQuoteToExcludeFee (adjustQuoteToIncludeFee notional feeRatePips) feeRatePips ∧
    (notional * feeRatePips * feeRatePips < 1000000 * 1000000 - feeRatePips * feeRatePips →
      adjustQuoteToExcludeFee (adjustQuoteToIncludeFee notional feeRatePips) feeRatePips ≤
        notional) := by
  unfold adjustQuoteToExcludeFee adjustQuoteToIncludeFee FEE_RATE_PIPS_MAX_VALUE
  set M : ℤ := 1000000 with hMdef
  set n := notional with hndef
  set f := feeRatePips with hfdef
  have hd1 : (0 : ℤ) < M - f := by omega
  have hd2 : (0 : ℤ) < M + f := by omega
  have hnum1 : (0 : ℤ) ≤ n * M := by positivity
  rw [Int.tdiv_eq_ediv hnum1 (by omega)]
  set inc := n * M / (M - f) with hincdef
  have hinc0 : 0 ≤ inc := Int.ediv_nonneg hnum1 (by omega)
  have hnum2 : (0 : ℤ) ≤ inc * M := by positivity
  rw [Int.tdiv_eq_ediv hnum2 (by omega)]
  set exc := inc * M / (M + f) with hexcdef
  have A : (M - f) * inc + n * M % (M - f) = n * M := Int.ediv_add_emod _ _
  have B : (M + f) * exc + inc * M % (M + f) = inc * M := Int.ediv_add_emod _ _
  set r1 := n * M % (M - f) with hr1def
  set r2 := inc * M % (M + f) with hr2def
  have hr1a : 0 ≤ r1 := Int.emod_nonneg _ (by omega)
  have hr1b : r1 < M - f := Int.emod_lt_of_pos _ hd1
  have hr2a : 0 ≤ r2 := Int.emod_nonneg _ (by omega)
  have hr2b : r2 < M + f := Int.emod_lt_of_pos _ hd2
  have E : (M * M - f * f) * exc + (M - f) * r2 + M * r1 = n * (M * M) := by
    linear_combination M * A + (M - f) * B
  have hMf : (0 : ℤ) < M * M - f * f := by nlinarith
  constructor
  · by_contra hc
    push_neg at hc
    have hc2 : exc ≤ n - 2 := by omega
    have h5 : (M * M - f * f) * exc ≤ (M * M - f * f) * (n - 2) :=
      mul_le_mul_of_nonneg_left hc2 (le_of_lt hMf)
    have p1 : M * r1 ≤ M * (M - f - 1) := mul_le_mul_of_nonneg_left (by omega) (by omega)
    have p2 : (M - f) * r2 ≤ (M - f) * (M + f - 1) :=
      mul_le_mul_of_nonneg_left (by omega) (by omega)
    nlinarith [mul_nonneg (mul_nonneg hn hf0) hf0, mul_nonneg hf0 (sub_nonneg.2 hf.le)]
  · intro hb
    by_contra hc
    push_neg at hc
    have hc2 : n + 1 ≤ exc := by omega
    have h5 : (M * M - f * f) * (n + 1) ≤ (M * M - f * f) * exc :=
      mul_le_mul_of_nonneg_left hc2 (le_of_lt hMf)
    have p1 : 0 ≤ M * r1 := by positivity
    have p2 : 0 ≤ (M - f) * r2 := mul_nonneg (by omega) hr2a
    nlinarith

/-- Witness for `feeRoundTrip_amended` at `notional = 100`,
`feeRatePips = 10000`. -/
theorem feeRoundTrip_amended_witness :
    (0 ≤ (100 : ℤ) ∧ 0 ≤ (10000 : ℤ) ∧ (10000 : ℤ) < 1000000) ∧
    ((100 : ℤ) - 1 ≤ adjustQuoteToExcludeFee (adjustQuoteToIncludeFee 100 10000) 10000 ∧
     ((100 : ℤ) * 10000 * 10000 < 1000000 * 1000000 - 10000 * 10000 →
       adjustQuoteToExcludeFee (adjustQuoteToIncludeFee 100 10000) 10000 ≤ 100)) :=
  ⟨⟨by decide, by decide, by decide⟩,
   feeRoundTrip_amended 100 10000 (by decide) (by decide) (by decide)⟩

/-! ## Claim C2 -/

/-- C2 counterexample: for the pool `(baseLiquidity, quoteLiquidity) = (3, 3)`
and `Δ = -1`, the estimate is non-null but
`newBaseLiquidity * floor(product / newBaseLiquidity) = 2 * 4 = 8 < 9`:
with `newQuoteLiquidity` defined as the floored quotient the claimed
product inequality fails. -/
theorem cp_conservation_cex :
    (estimatePoolBaseLiquidityAdjustment ⟨3, 3, 0⟩ (-1)).isSome = true ∧
    ((3 : ℤ) + -1) * Int.tdiv ((3 : ℤ) * 3) (3 + -1) < 3 * 3 := by
  constructor
  · rfl
  · decide

/-- C2 (amended): the floored quotient alone satisfies only `≤`; the
post-trade quote reserve actually charged for, `quoteLiquidity + quoteDelta`
(the floored quotient plus the `+1` rounding-safety bias), does satisfy the
constant-product lower bound: the rounding bias never favors the trader. -/
theorem cp_conservation_amended (lp : LiquidityPoolState) (baseDelta : ℤ)
    (e : LiquidityAdjustmentEstimate)
    (hB : 0 < lp.baseLiquidity) (hQ : 0 < lp.quoteLiquidity)
    (he : estimatePoolBaseLiquidityAdjustment lp baseDelta = some e) :
    lp.baseLiquidity * lp.quoteLiquidity ≤
      (lp.baseLiquidity + baseDelta) * (lp.quoteLiquidity + e.quoteDelta) := by
  rw [estimate_eq_some_iff] at he
  obtain ⟨h1, h2, h3⟩ := he
  subst h3
  simp only
  set p := lp.baseLiquidity * lp.quoteLiquidity with hp
  set nb := lp.baseLiquidity + baseDelta with hnb
  have hp0 : 0 ≤ p := by positivity
  rw [Int.tdiv_eq_ediv hp0 (by omega)]
  have hAB : nb * (p / nb) + p % nb = p := Int.ediv_add_emod _ _
  have hm : p % nb < nb := Int.emod_lt_of_pos _ h1
  have key : nb * (p / nb + 1) = nb * (p / nb) + nb := by ring
  have goal_eq : lp.quoteLiquidity + (p / nb - lp.quoteLiquidity + 1) = p / nb + 1 := by ring
  rw [goal_eq, key]
  omega

/-- Witness for `cp_conservation_amended` on the pool `(3, 3)` with `Δ = -1`. -/
theorem cp_conservation_amended_witness :
    (0 < (3 : ℤ) ∧ 0 < (3 : ℤ) ∧
     estimatePoolBaseLiquidityAdjustment ⟨3, 3, 0⟩ (-1) = some ⟨-1, 2, 0⟩) ∧
    (3 : ℤ) * 3 ≤ ((3 : ℤ) + -1) * (3 + 2) := by
  have ht : Int.tdiv ((3 : ℤ) * 3) (3 + -1) = 4 := by decide
  have hfee : calculateFeeDecimal 2 0 = 0 := by
    unfold calculateFeeDecimal calculateFee feeRateToBigIntOfDecimal FEE_RATE_PIPS_MAX_VALUE
    norm_num
  have he : estimatePoolBaseLiquidityAdjustment ⟨3, 3, 0⟩ (-1) = some ⟨-1, 2, 0⟩ := by
    rw [estimate_eq_some_iff]
    refine ⟨by decide, by decide, ?_⟩
    simp only [LiquidityAdjustmentEstimate.mk.injEq]
    simp only [show ((3 : ℤ) * 3) = 9 from by norm_num,
      show ((3 : ℤ) + -1) = 2 from by norm_num,
      show Int.tdiv (9 : ℤ) 2 = 4 from by decide]
    norm_num [hfee]
  refine ⟨⟨by decide, by decide, he⟩, ?_⟩
  have h2 := cp_conservation_amended ⟨3, 3, 0⟩ (-1) ⟨-1, 2, 0⟩ (by decide) (by decide) he
  simp only at h2
  exact h2

/-! ## Claim C7 -/

/-- C7 counterexample: at `feeRatePips = 2,000,000 ≥ 1,000,000` the function
does not throw; the divisor is negative and the call returns the value `-1`
for `quoteAmount = 1`. -/
theorem includeFee_cex : adjustQuoteToIncludeFeeChecked 1 2000000 = some (-1) := by
  decide

/-- C7 (amended): `adjustQuoteToIncludeFee` throws (BigInt division by zero)
exactly when `feeRatePips = 1,000,000`; for `feeRatePips > 1,000,000` it
silently returns a non-positive value computed with a negative divisor. -/
theorem includeFee_throws_iff_exactly_max (quoteAmount feeRatePips : ℤ)
    (hq : 0 ≤ quoteAmount) (_hf : 1000000 ≤ feeRatePips) :
    (adjustQuoteToIncludeFeeChecked quoteAmount feeRatePips = none ↔
      feeRatePips = 1000000) ∧
    (1000000 < feeRatePips →
      adjustQuoteToIncludeFeeChecked quoteAmount feeRatePips =
        some (adjustQuoteToIncludeFee quoteAmount feeRatePips) ∧
      adjustQuoteToIncludeFee quoteAmount feeRatePips ≤ 0) := by
  unfold adjustQuoteToIncludeFeeChecked adjustQuoteToIncludeFee FEE_RATE_PIPS_MAX_VALUE
  constructor
  · constructor
    · intro h
      by_contra hne
      rw [if_neg (by omega)] at h
      exact Option.some_ne_none _ h
    · intro h
      rw [if_pos (by omega)]
  · intro hgt
    rw [if_neg (by omega)]
    refine ⟨rfl, ?_⟩
    have h1 : Int.tdiv (quoteAmount * 1000000) (1000000 - feeRatePips) =
        -Int.tdiv (quoteAmount * 1000000) (feeRatePips - 1000000) := by
      rw [show (1000000 : ℤ) - feeRatePips = -(feeRatePips - 1000000) by ring, Int.tdiv_neg]
    rw [h1]
    have h2 : 0 ≤ Int.tdiv (quoteAmount * 1000000) (feeRatePips - 1000000) :=
      Int.tdiv_nonneg (by positivity) (by omega)
    omega

/-- Witness for `includeFee_throws_iff_exactly_max` at `quoteAmount = 1`,
`feeRatePips = 2,000,000`. -/
theorem includeFee_throws_iff_exactly_max_witness :
    (0 ≤ (1 : ℤ) ∧ 1000000 ≤ (2000000 : ℤ)) ∧
    ((adjustQuoteToIncludeFeeChecked 1 2000000 = none ↔ (2000000 : ℤ) = 1000000) ∧
     (1000000 < (2000000 : ℤ) →
       adjustQuoteToIncludeFeeChecked 1 2000000 = some (adjustQuoteToIncludeFee 1 2000000) ∧
       adjustQuoteToIncludeFee 1 2000000 ≤ 0)) :=
  ⟨⟨by decide, by decide⟩,
   includeFee_throws_iff_exactly_max 1 2000000 (by decide) (by decide)⟩

/-! ## Claim C10 -/

/-- C10: for `baseAmount = 0` both top-level base-amount quote functions
return `some 0` immediately, for every market, AMM state and adapter market
state (in particular even when the adapter order book is empty). -/
theorem zeroBaseAmount_quotes_return_zero (market : MarketWithSymbolInfos)
    (ammState : AmmState) (adapterMarketState : Option AdapterMarketState) :
    quoteAmountRequiredForBuyingBaseIncludingFee 0 market ammState adapterMarketState = some 0 ∧
    quoteAmountMinusFeeToReceiveForSellingBase 0 market ammState adapterMarketState = some 0 := by
  constructor
  · unfold quoteAmountRequiredForBuyingBaseIncludingFee
    rw [if_pos rfl]
  · unfold quoteAmountMinusFeeToReceiveForSellingBase
    rw [if_pos rfl]

/-! ## Claim C4 -/

/-- C4 (amended): the two bid-walking clob functions consume the `buy`
array in its own order, i.e. starting from the BEST/highest bid: the
`toReversed()` of the source is undone by the loop popping levels from the
END of the reversed array, so the walk over
`orderBook.buy.reverse |> reverse` equals the walk over `orderBook.buy`
itself, whose first element is the best bid. -/
theorem clob_bid_walk_order (quoteAmount baseAmount : ℤ) (market : MarketWithSymbolInfos)
    (orderBook : OrderBook) (feeRates : FeeRates) :
    baseAmountToSellToGetQuoteAmountAtClobMarket quoteAmount market orderBook feeRates =
      baseAmountToSellWalk market (orderBook.buy.map (parseLevel market))
        (adjustQuoteToIncludeFee quoteAmount feeRates.taker) 0 ∧
    quoteAmountToGetFromSellingBaseAmountAtClobMarket baseAmount market orderBook feeRates =
      (quoteAmountFromSellingWalk market (orderBook.buy.map (parseLevel market)) baseAmount 0).map
        (fun q => q - calculateFee q feeRates.taker) := by
  constructor
  · unfold baseAmountToSellToGetQuoteAmountAtClobMarket
    simp [List.map_reverse, List.reverse_reverse]
  · unfold quoteAmountToGetFromSellingBaseAmountAtClobMarket
    simp only [List.map_reverse, List.reverse_reverse]
    cases quoteAmountFromSellingWalk market (orderBook.buy.map (parseLevel market)) baseAmount 0 <;> rfl

/-- Modelled from the spec's words for comparison (claim C4): a bid walk
that consumes levels starting from the lowest/worst bid, i.e. walking the
reversed `buy` array front-to-back.  This is what the spec describes and is
NOT what the code does. -/
def quoteAmountFromSellingWorstFirst (baseAmount : ℤ) (market : MarketWithSymbolInfos)
    (orderBook : OrderBook) (feeRates : FeeRates) : Option ℤ :=
  let levels := (orderBook.buy.map (parseLevel market)).reverse
  match quoteAmountFromSellingWalk market levels baseAmount 0 with
  | none => none
  | some quoteAmount => some (quoteAmount - calculateFee quoteAmount feeRates.taker)

/-- C4 counterexample: on the book with bids `[price 3 size 1, price 1 size 1]`
(best first, two distinct prices), selling 1 base unit consumes the
price-3 (best) level and yields 3; the worst-first walk the claim describes
would consume the price-1 level and yield 1. -/
theorem clob_bid_walk_order_cex :
    quoteAmountToGetFromSellingBaseAmountAtClobMarket 1 ⟨⟨0⟩, ⟨0⟩⟩
      ⟨[⟨3, 1⟩, ⟨1, 1⟩], []⟩ ⟨0, 0⟩ = some 3 ∧
    quoteAmountFromSellingWorstFirst 1 ⟨⟨0⟩, ⟨0⟩⟩
      ⟨[⟨3, 1⟩, ⟨1, 1⟩], []⟩ ⟨0, 0⟩ = some 1 ∧
    (3 : ℤ) ≠ 1 := by
  have hp3 : parseUnits 3 0 = 3 := by norm_num [parseUnits]
  have hp1 : parseUnits 1 0 = 1 := by norm_num [parseUnits]
  have hn31 : calculateNotional 3 1 ⟨0⟩ = 3 := by decide
  have hn11 : calculateNotional 1 1 ⟨0⟩ = 1 := by decide
  have hf3 : calculateFee 3 0 = 0 := by decide
  have hf1 : calculateFee 1 0 = 0 := by decide
  refine ⟨?_, ?_, by decide⟩
  · unfold quoteAmountToGetFromSellingBaseAmountAtClobMarket
    simp [parseLevel, hp3, hp1, quoteAmountFromSellingWalk, hn31, hf3]
  · unfold quoteAmountFromSellingWorstFirst
    simp [parseLevel, hp3, hp1, quoteAmountFromSellingWalk, hn11, hf1]

/-! ## Claim C3 -/

/-- C3: evaluation at the failing input.  With two pools of equal reserves
`(1000, 1000)` and fee rates `0` and `1`, selling 100 produces the candidate
list `[tradeA (notional 90, fee 0), tradeB (notional 90, fee 90)]`;
`getCpBestSellEstimate` returns `tradeB`, whose seller value
`notional - fee = 0` is strictly less than `tradeA`'s value `90`: the
selected trade does not maximize the value returned to the seller.  (The
loop compares the candidate's `notional + fee` against the incumbent's
`notional - fee`; the buy-side twin compares `notional + fee` on both
sides, so the sell-side mixed comparison is a slip.) -/
theorem cpBestSell_not_maximal :
    cpPossibleSellTrades 100 ⟨[⟨1000, 1000, 0⟩, ⟨1000, 1000, 1⟩]⟩ =
      [⟨⟨1000, 1000, 0⟩, 100, 90, 0, OrderSide.Sell⟩,
       ⟨⟨1000, 1000, 1⟩, 100, 90, 90, OrderSide.Sell⟩] ∧
    getCpBestSellEstimate 100 ⟨[⟨1000, 1000, 0⟩, ⟨1000, 1000, 1⟩]⟩ =
      some ⟨⟨1000, 1000, 1⟩, 100, 90, 90, OrderSide.Sell⟩ ∧
    (90 : ℤ) - 90 < 90 - 0 := by
  have htd : Int.tdiv ((1000 : ℤ) * 1000) (1000 + 100) = 909 := by decide
  have hqd : Int.tdiv ((1000 : ℤ) * 1000) (1000 + 100) - 1000 + 1 = -90 := by
    rw [htd]; norm_num
  have hfee0 : calculateFeeDecimal (-90) 0 = 0 := by
    unfold calculateFeeDecimal calculateFee feeRateToBigIntOfDecimal FEE_RATE_PIPS_MAX_VALUE
    norm_num
  have hfee1 : calculateFeeDecimal (-90) 1 = -90 := by
    unfold calculateFeeDecimal calculateFee feeRateToBigIntOfDecimal FEE_RATE_PIPS_MAX_VALUE
    norm_num
    decide
  have hA : estimatePoolBaseLiquidityAdjustment ⟨1000, 1000, 0⟩ 100 = some ⟨100, -90, 0⟩ := by
    rw [estimate_eq_some_iff]
    refine ⟨by norm_num, by rw [htd]; norm_num, ?_⟩
    simp only [hqd, hfee0]
  have hB : estimatePoolBaseLiquidityAdjustment ⟨1000, 1000, 1⟩ 100 = some ⟨100, -90, -90⟩ := by
    rw [estimate_eq_some_iff]
    refine ⟨by norm_num, by rw [htd]; norm_num, ?_⟩
    simp only [hqd, hfee1]
  have habs90 : absBigInt (-90) = 90 := by decide
  have habs0 : absBigInt 0 = 0 := by decide
  have htrades : cpPossibleSellTrades 100 ⟨[⟨1000, 1000, 0⟩, ⟨1000, 1000, 1⟩]⟩ =
      [⟨⟨1000, 1000, 0⟩, 100, 90, 0, OrderSide.Sell⟩,
       ⟨⟨1000, 1000, 1⟩, 100, 90, 90, OrderSide.Sell⟩] := by
    unfold cpPossibleSellTrades
    simp [List.filterMap_cons, hA, hB, habs90, habs0]
  refine ⟨htrades, ?_, by decide⟩
  unfold getCpBestSellEstimate
  rw [htrades]
  norm_num

/-! ## Claim C9 -/

/-- C9: the binary search terminates.  When the loop body runs
(`right - left > 1`), both possible next intervals are strictly narrower
than the current one (the midpoint lies strictly between the endpoints),
and the loop exits returning its accumulator as soon as the interval width
is at most 1. -/
theorem bsLoop_terminates (lp : LiquidityPoolState) (target left right : ℤ)
    (h : 1 < right - left) :
    (right - bsLoopMiddle left right < right - left ∧
     bsLoopMiddle left right - left < right - left) ∧
    (∀ l r acc, r - l ≤ 1 → bsLoop lp target l r acc = acc) := by
  constructor
  · have h1 := tdiv_two_bounds (left + right)
    unfold bsLoopMiddle
    omega
  · intro l r acc hw
    rw [bsLoop]
    rw [if_neg (by omega)]

/-- Loop invariant of the binary search: any estimate it returns was
produced by `estimatePoolBaseLiquidityAdjustment` at the negation of a
non-negative probe and has achieved quote delta at most the target. -/
theorem bsLoop_result_bound (lp : LiquidityPoolState) (target : ℤ) :
    ∀ (fuel : ℕ) (left right : ℤ) (acc : Option LiquidityAdjustmentEstimate)
      (e : LiquidityAdjustmentEstimate),
      (right - left).toNat ≤ fuel → 0 ≤ left → 0 ≤ right →
      (∀ e0, acc = some e0 → ∃ m : ℤ, 0 ≤ m ∧
        estimatePoolBaseLiquidityAdjustment lp (-m) = some e0 ∧ e0.quoteDelta ≤ target) →
      bsLoop lp target left right acc = some e →
      ∃ m : ℤ, 0 ≤ m ∧ estimatePoolBaseLiquidityAdjustment lp (-m) = some e ∧
        e.quoteDelta ≤ target := by
  intro fuel
  induction fuel with
  | zero =>
    intro l r acc e hfuel hl hr hacc hres
    rw [bsLoop, if_neg (by omega)] at hres
    exact hacc e hres
  | succ n ih =>
    intro l r acc e hfuel hl hr hacc hres
    rw [bsLoop] at hres
    by_cases hw : 1 < r - l
    · rw [if_pos hw] at hres
      dsimp only at hres
      have hmb := tdiv_two_bounds (l + r)
      have hm0 : 0 ≤ bsLoopMiddle l r := by
        unfold bsLoopMiddle
        omega
      cases hest : estimatePoolBaseLiquidityAdjustment lp (-(bsLoopMiddle l r)) with
      | none =>
        rw [hest] at hres
        dsimp only at hres
        exact absurd hres (by simp)
      | some est =>
        rw [hest] at hres
        dsimp only at hres
        by_cases he1 : est.quoteDelta = target
        · rw [if_pos he1] at hres
          refine ⟨bsLoopMiddle l r, hm0, ?_, ?_⟩
          · rw [hest, Option.some_inj.mp hres]
          · rw [← Option.some_inj.mp hres]
            exact le_of_eq he1
        · rw [if_neg he1] at hres
          by_cases he2 : est.quoteDelta < target
          · rw [if_pos he2] at hres
            refine ih (bsLoopMiddle l r) r (some est) e ?_ hm0 hr ?_ hres
            · unfold bsLoopMiddle at *
              omega
            · intro e0 he0
              exact ⟨bsLoopMiddle l r, hm0, by rw [hest, Option.some_inj.mp he0],
                by rw [← Option.some_inj.mp he0]; exact le_of_lt he2⟩
          · rw [if_neg he2] at hres
            refine ih l (bsLoopMiddle l r) acc e ?_ hl hm0 hacc hres
            unfold bsLoopMiddle at *
            omega
    · rw [if_neg hw] at hres
      exact hacc e hres

/-! ## Claim C8 -/

/-- C8: whenever `baseAmountToRemoveToIncreasePoolQuoteByDelta` returns a
base amount `b` for a pool with strictly positive reserves and a strictly
positive target, removing `b` from the pool achieves a quote delta that
does not exceed the target. -/
theorem baseAmountToRemove_le_target (lp : LiquidityPoolState) (target b : ℤ)
    (hB : 0 < lp.baseLiquidity) (hQ : 0 < lp.quoteLiquidity) (ht : 0 < target)
    (hres : baseAmountToRemoveToIncreasePoolQuoteByDelta lp target = some b) :
    ∃ e, estimatePoolBaseLiquidityAdjustment lp (-b) = some e ∧
      e.quoteDelta ≤ target := by
  unfold baseAmountToRemoveToIncreasePoolQuoteByDelta at hres
  dsimp only at hres
  set nb := Int.tdiv (lp.baseLiquidity * lp.quoteLiquidity) (lp.quoteLiquidity + target)
    with hnb
  have hnbB : nb < lp.baseLiquidity := by
    rw [hnb, Int.tdiv_eq_ediv (by positivity) (by omega)]
    rw [Int.ediv_lt_iff_lt_mul (by omega)]
    nlinarith
  by_cases h0 : nb = 0
  · rw [if_pos h0] at hres
    exact absurd hres (by simp)
  rw [if_neg h0] at hres
  set rough := nb - lp.baseLiquidity with hrough
  have hrneg : rough < 0 := by omega
  have habs : absBigInt rough = -rough := by
    unfold absBigInt
    rw [if_pos hrneg]
  cases hest : estimatePoolBaseLiquidityAdjustment lp rough with
  | none =>
    rw [hest] at hres
    dsimp only at hres
    exact absurd hres (by simp)
  | some re =>
    rw [hest] at hres
    dsimp only at hres
    by_cases heq : re.quoteDelta = target
    · rw [if_pos heq] at hres
      have hb : b = absBigInt rough := (Option.some_inj.mp hres).symm
      refine ⟨re, ?_, le_of_eq heq⟩
      rw [hb, habs, neg_neg, hest]
    · rw [if_neg heq] at hres
      by_cases hlt : re.quoteDelta < target
      · rw [if_pos hlt] at hres
        dsimp only at hres
        obtain ⟨e', hloop, hbe⟩ := Option.map_eq_some'.mp hres
        obtain ⟨m, hm0, hestm, hqd⟩ := bsLoop_result_bound lp target
          ((absBigInt rough * 2) - absBigInt rough).toNat
          (absBigInt rough) (absBigInt rough * 2) none e' (le_refl _)
          (by rw [habs]; omega) (by rw [habs]; omega)
          (by intro e0 h; exact absurd h (by simp)) hloop
        have hbd : e'.baseDelta = -m := by
          rw [estimate_eq_some_iff] at hestm
          rw [hestm.2.2]
        have hab : absBigInt e'.baseDelta = m := by
          rw [hbd]
          unfold absBigInt
          split_ifs <;> omega
        refine ⟨e', ?_, hqd⟩
        rw [← hbe, hab, hestm]
      · rw [if_neg hlt] at hres
        dsimp only at hres
        obtain ⟨e', hloop, hbe⟩ := Option.map_eq_some'.mp hres
        obtain ⟨m, hm0, hestm, hqd⟩ := bsLoop_result_bound lp target
          (absBigInt rough - Int.tdiv (absBigInt rough) 2).toNat
          (Int.tdiv (absBigInt rough) 2) (absBigInt rough) none e' (le_refl _)
          (Int.tdiv_nonneg (by rw [habs]; omega) (by norm_num))
          (by rw [habs]; omega)
          (by intro e0 h; exact absurd h (by simp)) hloop
        have hbd : e'.baseDelta = -m := by
          rw [estimate_eq_some_iff] at hestm
          rw [hestm.2.2]
        have hab : absBigInt e'.baseDelta = m := by
          rw [hbd]
          unfold absBigInt
          split_ifs <;> omega
        refine ⟨e', ?_, hqd⟩
        rw [← hbe, hab, hestm]

/-- Witness for `bsLoop_terminates` at `left = 0`, `right = 3`. -/
theorem bsLoop_terminates_witness :
    (1 : ℤ) < 3 - 0 ∧
    (((3 : ℤ) - bsLoopMiddle 0 3 < 3 - 0 ∧ bsLoopMiddle 0 3 - 0 < 3 - 0) ∧
     (∀ l r acc, r - l ≤ 1 → bsLoop ⟨1, 1, 0⟩ 0 l r acc = acc)) :=
  ⟨by decide, bsLoop_terminates ⟨1, 1, 0⟩ 0 0 3 (by decide)⟩

/-- Fee on any notional at a zero decimal fee rate is zero. -/
theorem calculateFeeDecimal_zero (n : ℤ) : calculateFeeDecimal n 0 = 0 := by
  unfold calculateFeeDecimal calculateFee feeRateToBigIntOfDecimal FEE_RATE_PIPS_MAX_VALUE
  norm_num

/-- Witness computation: the binary search on the pool `(20, 20)` with
target quote delta 5 returns base amount 3. -/
theorem baseAmountToRemove_concrete :
    baseAmountToRemoveToIncreasePoolQuoteByDelta ⟨20, 20, 0⟩ 5 = some 3 := by
  have hest4 : estimatePoolBaseLiquidityAdjustment ⟨20, 20, 0⟩ (-4) = some ⟨-4, 6, 0⟩ := by
    rw [estimate_eq_some_iff]
    refine ⟨by decide, by decide, ?_⟩
    simp only [show Int.tdiv ((20 : ℤ) * 20) (20 + -4) = 25 from by decide,
      calculateFeeDecimal_zero]
    norm_num
  have hest3 : estimatePoolBaseLiquidityAdjustment ⟨20, 20, 0⟩ (-3) = some ⟨-3, 4, 0⟩ := by
    rw [estimate_eq_some_iff]
    refine ⟨by decide, by decide, ?_⟩
    simp only [show Int.tdiv ((20 : ℤ) * 20) (20 + -3) = 23 from by decide,
      calculateFeeDecimal_zero]
    norm_num
  unfold baseAmountToRemoveToIncreasePoolQuoteByDelta
  dsimp only
  rw [show Int.tdiv ((20 : ℤ) * 20) (20 + 5) = 16 from by decide]
  rw [if_neg (by decide)]
  rw [show ((16 : ℤ) - 20) = -4 from by decide]
  rw [hest4]
  dsimp only
  rw [if_neg (by decide), if_neg (by decide)]
  dsimp only
  rw [show absBigInt (-4) = 4 from by decide]
  rw [show Int.tdiv (4 : ℤ) 2 = 2 from by decide]
  rw [bsLoop]
  rw [if_pos (by decide)]
  dsimp only
  rw [show bsLoopMiddle 2 4 = 3 from by decide]
  rw [hest3]
  dsimp only
  rw [if_neg (by decide), if_pos (by decide)]
  rw [bsLoop]
  rw [if_neg (by decide)]
  rfl

/-- Witness for `baseAmountToRemove_le_target` on the pool `(20, 20)` with
target 5, where the search returns base amount 3. -/
theorem baseAmountToRemove_le_target_witness :
    (0 < (20 : ℤ) ∧ 0 < (20 : ℤ) ∧ 0 < (5 : ℤ) ∧
     baseAmountToRemoveToIncreasePoolQuoteByDelta ⟨20, 20, 0⟩ 5 = some 3) ∧
    (∃ e, estimatePoolBaseLiquidityAdjustment ⟨20, 20, 0⟩ (-3) = some e ∧
      e.quoteDelta ≤ 5) :=
  ⟨⟨by decide, by decide, by decide, baseAmountToRemove_concrete⟩,
   baseAmountToRemove_le_target ⟨20, 20, 0⟩ 5 3 (by decide) (by decide) (by decide)
     baseAmountToRemove_concrete⟩

/-! ## Claim C5 -/

/-- Floor of an integer-by-integer rational division with positive divisor
is integer floor division. -/
theorem floor_intCast_div (a b : ℤ) (hb : 0 < b) :
    ⌊(a : ℚ) / (b : ℚ)⌋ = Int.fdiv a b := by
  rw [Int.fdiv_eq_ediv a hb.le]
  have h1 : ((b.toNat : ℕ) : ℚ) = (b : ℚ) := by
    rw [← Int.cast_natCast]
    exact congrArg _ (Int.toNat_of_nonneg hb.le)
  rw [← h1, Rat.floor_intCast_div_natCast a b.toNat, Int.toNat_of_nonneg hb.le]

/-- Modelled from the claim's words for comparison (claim C5): the
bonding-curve cost with the `+1` increment taken as one smallest
QUOTE-asset unit (`bigintToScaledDecimal 1 quoteSymbol.decimals`) instead
of the base-asset unit the code adds. -/
def bondingCurveCostClaimQuoteUnit (amount : ℚ) (market : MarketWithSymbolInfos)
    (bondingCurve : BondingCurveAmmState) : ℤ :=
  let virtualQuoteReserves :=
    bigintToScaledDecimal bondingCurve.virtualQuoteReserves market.quoteSymbol.decimals
  let virtualBaseReserves :=
    bigintToScaledDecimal bondingCurve.virtualBaseReserves market.baseSymbol.decimals
  scaledDecimalToBigint
    (|amount| * (virtualQuoteReserves / (virtualBaseReserves + -amount)) +
      bigintToScaledDecimal 1 market.quoteSymbol.decimals)
    market.quoteSymbol.decimals

/-- C5 counterexample: on a market with `baseSymbol.decimals = 2` and
`quoteSymbol.decimals = 0`, curve reserves `virtualBase = 200` (scaled, i.e.
2.00) and `virtualQuote = 100`, and base delta `Δ = 100` (1.00 base,
`virtualBaseReserves - Δ = 100 > 0`), the code returns 100 while the
claim's formula (`… + 1` smallest quote unit, floored to quote precision)
gives 101: the `+1` the code adds is one BASE-asset unit (0.01), which
vanishes under the quote-precision floor. -/
theorem bondingCurveCost_cex :
    bondingCurveCostFor (bigintToScaledDecimal 100 2) ⟨⟨2⟩, ⟨0⟩⟩ ⟨200, 200, 100, 0⟩ = 100 ∧
    bondingCurveCostClaimQuoteUnit (bigintToScaledDecimal 100 2) ⟨⟨2⟩, ⟨0⟩⟩
      ⟨200, 200, 100, 0⟩ = 101 ∧
    (100 : ℤ) ≠ 101 := by
  refine ⟨?_, ?_, by decide⟩
  · unfold bondingCurveCostFor bigintToScaledDecimal scaledDecimalToBigint
    norm_num
  · unfold bondingCurveCostClaimQuoteUnit bigintToScaledDecimal scaledDecimalToBigint
    norm_num

/-- C5 (amended): the rounding-safety increment is one smallest BASE-asset
unit added before flooring to quote precision; when the market's base and
quote assets have equal decimal counts this coincides with the claimed
"+1 smallest quote-asset unit" and the cost equals
`floor(|Δ| * virtualQuote / (virtualBase - Δ)) + 1` in integer (scaled)
units, for every curve state and every scaled base delta `Δ` with
`virtualBaseReserves - Δ > 0`. -/
theorem bondingCurveCost_amended (market : MarketWithSymbolInfos)
    (curve : BondingCurveAmmState) (delta : ℤ) (d : ℕ)
    (hbd : market.baseSymbol.decimals = d) (hqd : market.quoteSymbol.decimals = d)
    (hpos : 0 < curve.virtualBaseReserves - delta) :
    bondingCurveCostFor (bigintToScaledDecimal delta d) market curve =
      Int.fdiv (|delta| * curve.virtualQuoteReserves)
        (curve.virtualBaseReserves - delta) + 1 := by
  unfold bondingCurveCostFor bigintToScaledDecimal scaledDecimalToBigint
  rw [hbd, hqd]
  have h10 : (0 : ℚ) < (10 : ℚ) ^ d := by positivity
  have hsub : (0 : ℚ) < (curve.virtualBaseReserves : ℚ) / (10 : ℚ) ^ d +
      -((delta : ℚ) / (10 : ℚ) ^ d) := by
    have : (curve.virtualBaseReserves : ℚ) / (10 : ℚ) ^ d + -((delta : ℚ) / (10 : ℚ) ^ d) =
        ((curve.virtualBaseReserves - delta : ℤ) : ℚ) / (10 : ℚ) ^ d := by
      push_cast
      ring
    rw [this]
    apply div_pos _ h10
    exact_mod_cast hpos
  have key : (|(delta : ℚ) / (10 : ℚ) ^ d| *
        ((curve.virtualQuoteReserves : ℚ) / (10 : ℚ) ^ d /
          ((curve.virtualBaseReserves : ℚ) / (10 : ℚ) ^ d + -((delta : ℚ) / (10 : ℚ) ^ d))) +
        (1 : ℤ) / (10 : ℚ) ^ d) * (10 : ℚ) ^ d =
      ((|delta| * curve.virtualQuoteReserves : ℤ) : ℚ) /
        ((curve.virtualBaseReserves - delta : ℤ) : ℚ) + 1 := by
    have hne : ((curve.virtualBaseReserves - delta : ℤ) : ℚ) ≠ 0 := by
      exact_mod_cast hpos.ne'
    have habs : |(delta : ℚ) / (10 : ℚ) ^ d| = ((|delta| : ℤ) : ℚ) / (10 : ℚ) ^ d := by
      rw [abs_div, abs_of_pos h10, Int.cast_abs]
    rw [habs]
    have hsub2 : (curve.virtualBaseReserves : ℚ) / (10 : ℚ) ^ d +
        -((delta : ℚ) / (10 : ℚ) ^ d) =
        ((curve.virtualBaseReserves - delta : ℤ) : ℚ) / (10 : ℚ) ^ d := by
      push_cast
      ring
    rw [hsub2]
    have h10ne : ((10 : ℚ) ^ d) ≠ 0 := h10.ne'
    field_simp
    rw [mul_comm ((10 : ℚ) ^ d) ((curve.virtualBaseReserves : ℚ) - (delta : ℚ)),
      mul_div_mul_right _ _ h10ne]
  dsimp only
  rw [key, Int.floor_add_one, floor_intCast_div _ _ hpos]

/-- Witness for `bondingCurveCost_amended` on a market with 2/2 decimals,
curve `(virtualBase, virtualQuote) = (200, 100)` and `Δ = 100`. -/
theorem bondingCurveCost_amended_witness :
    ((⟨⟨2⟩, ⟨2⟩⟩ : MarketWithSymbolInfos).baseSymbol.decimals = 2 ∧
     (⟨⟨2⟩, ⟨2⟩⟩ : MarketWithSymbolInfos).quoteSymbol.decimals = 2 ∧
     0 < (200 : ℤ) - 100) ∧
    bondingCurveCostFor (bigintToScaledDecimal 100 2) ⟨⟨2⟩, ⟨2⟩⟩ ⟨200, 200, 100, 0⟩ =
      Int.fdiv (|(100 : ℤ)| * 100) (200 - 100) + 1 :=
  ⟨⟨rfl, rfl, by decide⟩,
   bondingCurveCost_amended ⟨⟨2⟩, ⟨2⟩⟩ ⟨200, 200, 100, 0⟩ 100 2 rfl rfl (by decide)⟩

/-! ## Claim C6 -/

/-- Data-model invariants of an AMM state assumed by claim C6: positive
virtual quote reserves and non-negative real reserves for a bonding curve,
strictly positive reserves for every constant-product pool. -/
def AmmWellFormed : AmmState → Prop
  | AmmState.BondingCurve s => 0 < s.virtualQuoteReserves ∧ 0 ≤ s.realBaseReserves
  | AmmState.ConstantProduct s =>
    ∀ lp ∈ s.liquidityPools, 0 < lp.baseLiquidity ∧ 0 < lp.quoteLiquidity

/-- On an empty bid side the sell-for-quote walk returns `none` or `some 0`. -/
theorem hopSell_none_or_zero (quoteAmount : ℤ) (amkt : MarketWithSymbolInfos)
    (book : OrderBook) (fees : FeeRates) (hb : book.buy = []) :
    baseAmountToSellToGetQuoteAmountAtClobMarket quoteAmount amkt book fees = none ∨
    baseAmountToSellToGetQuoteAmountAtClobMarket quoteAmount amkt book fees = some 0 := by
  unfold baseAmountToSellToGetQuoteAmountAtClobMarket
  rw [hb]
  dsimp only [List.reverse_nil, List.map_nil]
  unfold baseAmountToSellWalk
  split_ifs with h
  · exact Or.inl rfl
  · exact Or.inr rfl

/-- On an empty ask side the buy-with-quote walk returns `none` or `some 0`. -/
theorem hopGet_none_or_zero (quoteAmount : ℤ) (amkt : MarketWithSymbolInfos)
    (book : OrderBook) (fees : FeeRates) (hs : book.sell = []) :
    baseAmountToGetForQuoteAmountAtClobMarket quoteAmount amkt book fees = none ∨
    baseAmountToGetForQuoteAmountAtClobMarket quoteAmount amkt book fees = some 0 := by
  unfold baseAmountToGetForQuoteAmountAtClobMarket
  rw [hs]
  dsimp only [List.reverse_nil, List.map_nil]
  unfold baseAmountToGetWalk
  split_ifs with h
  · exact Or.inl rfl
  · exact Or.inr rfl

/-- On an empty bid side, selling a positive base amount has no liquidity
(`none`) and selling a non-positive amount nets exactly 0. -/
theorem hopSellBase_empty (baseAmount : ℤ) (amkt : MarketWithSymbolInfos)
    (book : OrderBook) (fees : FeeRates) (hb : book.buy = []) :
    quoteAmountToGetFromSellingBaseAmountAtClobMarket baseAmount amkt book fees =
      (if 0 < baseAmount then none else some 0) := by
  unfold quoteAmountToGetFromSellingBaseAmountAtClobMarket
  rw [hb]
  dsimp only [List.reverse_nil, List.map_nil]
  unfold quoteAmountFromSellingWalk
  split_ifs with h
  · rfl
  · have hfee : calculateFee 0 fees.taker = 0 := by
      unfold calculateFee
      rw [zero_mul, Int.zero_tdiv]
    dsimp only
    rw [hfee]
    rfl

/-- A well-formed pool cannot have its quote liquidity increased by a
target delta of 0: the rough estimate is exact reserves, the `+1` bias
makes the achieved delta 1 ≠ 0, and the degenerate search interval
`[0, 0]` exits immediately with no acceptable estimate. -/
theorem baseAmountToRemove_zero_target (lp : LiquidityPoolState)
    (hB : 0 < lp.baseLiquidity) (hQ : 0 < lp.quoteLiquidity) :
    baseAmountToRemoveToIncreasePoolQuoteByDelta lp 0 = none := by
  have hnb : Int.tdiv (lp.baseLiquidity * lp.quoteLiquidity) (lp.quoteLiquidity + 0) =
      lp.baseLiquidity := by
    rw [add_zero, Int.mul_tdiv_cancel _ hQ.ne']
  have hest : estimatePoolBaseLiquidityAdjustment lp (lp.baseLiquidity - lp.baseLiquidity) =
      some ⟨0, 1, calculateFeeDecimal 1 lp.feeRate⟩ := by
    rw [estimate_eq_some_iff]
    rw [sub_self, add_zero]
    refine ⟨hB, ?_, ?_⟩
    · rw [mul_comm, Int.mul_tdiv_cancel _ hB.ne']
      omega
    · rw [mul_comm, Int.mul_tdiv_cancel _ hB.ne', sub_self, zero_add]
  unfold baseAmountToRemoveToIncreasePoolQuoteByDelta
  dsimp only
  rw [hnb, if_neg (by omega), hest]
  dsimp only
  rw [if_neg (by omega), if_neg (by omega)]
  dsimp only
  rw [sub_self]
  have habs0 : absBigInt 0 = 0 := rfl
  rw [habs0, show Int.tdiv (0 : ℤ) 2 = 0 from rfl]
  rw [bsLoop, if_neg (by omega)]
  rfl

/-- Folding the pool-aggregation step over pools that all contribute
`none` leaves the accumulator unchanged. -/
theorem foldl_none_acc (pools : List LiquidityPoolState) (q : ℤ)
    (hall : ∀ lp ∈ pools, baseAmountToRemoveToIncreasePoolQuoteByDelta lp
      (adjustQuoteToExcludeFeeDecimal q lp.feeRate) = none) :
    ∀ acc : ℤ, pools.foldl
      (fun acc pool =>
        match baseAmountToRemoveToIncreasePoolQuoteByDelta pool
            (adjustQuoteToExcludeFeeDecimal q pool.feeRate) with
        | some estimate => if acc < estimate then estimate else acc
        | none => acc) acc = acc := by
  induction pools with
  | nil => intro acc; rfl
  | cons p ps ih =>
    intro acc
    have hp := hall p (List.mem_cons_self p ps)
    rw [List.foldl_cons, hp]
    exact ih (fun lp hlp => hall lp (List.mem_cons_of_mem p hlp)) acc

/-- Excluding any decimal fee from a zero notional is zero. -/
theorem adjustExcludeDecimal_zero (r : ℚ) : adjustQuoteToExcludeFeeDecimal 0 r = 0 := by
  unfold adjustQuoteToExcludeFeeDecimal adjustQuoteToExcludeFee
  rw [zero_mul, Int.zero_tdiv]

/-- C6 (amended): with an adapter market whose order book has no bid and
no ask levels, each composed quote function returns `null` or `0` — never a
positive amount.  `quoteAmountRequiredForBuyingBaseIncludingFee` and
`quoteAmountMinusFeeToReceiveForSellingBase` return `some 0` (not `null`)
at amount 0 and can also return `some 0` at positive amounts whose
intermediate quote rounds to zero, so the universally-quantified `null` of
the original claim fails; `baseAmountToReceiveForSellingQuoteIncludingFee`
does return `null` for every strictly positive quote amount. -/
theorem emptyBook_composed_quotes (n q : ℤ) (market : MarketWithSymbolInfos)
    (market3 : MarketDecimals) (amkt : MarketWithSymbolInfos) (book : OrderBook)
    (fees : FeeRates) (ammState : AmmState)
    (hbuy : book.buy = []) (hsell : book.sell = [])
    (hwf : AmmWellFormed ammState) (hq : 0 ≤ q) :
    (quoteAmountRequiredForBuyingBaseIncludingFee n market ammState
        (some ⟨amkt, book, fees⟩) = none ∨
     quoteAmountRequiredForBuyingBaseIncludingFee n market ammState
        (some ⟨amkt, book, fees⟩) = some 0) ∧
    (quoteAmountMinusFeeToReceiveForSellingBase n market ammState
        (some ⟨amkt, book, fees⟩) = none ∨
     quoteAmountMinusFeeToReceiveForSellingBase n market ammState
        (some ⟨amkt, book, fees⟩) = some 0) ∧
    (baseAmountToReceiveForSellingQuoteIncludingFee q market3 ammState
        (some ⟨amkt, book, fees⟩) = none ∨
     baseAmountToReceiveForSellingQuoteIncludingFee q market3 ammState
        (some ⟨amkt, book, fees⟩) = some 0) ∧
    (0 < q → baseAmountToReceiveForSellingQuoteIncludingFee q market3 ammState
        (some ⟨amkt, book, fees⟩) = none) := by
  refine ⟨?_, ?_, ?_⟩
  · by_cases hn : n = 0
    · subst hn
      right
      unfold quoteAmountRequiredForBuyingBaseIncludingFee
      rw [if_pos rfl]
    · unfold quoteAmountRequiredForBuyingBaseIncludingFee
      rw [if_neg hn]
      dsimp only
      cases ammState with
      | BondingCurve s =>
        dsimp only
        exact hopSell_none_or_zero _ amkt book fees hbuy
      | ConstantProduct s =>
        dsimp only
        cases hbb : getCpBestBuyEstimate n s with
        | none => left; rfl
        | some t => exact hopSell_none_or_zero _ amkt book fees hbuy
  · by_cases hn : n = 0
    · subst hn
      right
      unfold quoteAmountMinusFeeToReceiveForSellingBase
      rw [if_pos rfl]
    · unfold quoteAmountMinusFeeToReceiveForSellingBase
      rw [if_neg hn]
      dsimp only
      cases ammState with
      | BondingCurve s =>
        dsimp only
        exact hopGet_none_or_zero _ amkt book fees hsell
      | ConstantProduct s =>
        dsimp only
        cases hbb : getCpBestSellEstimate n s with
        | none => left; rfl
        | some t => exact hopGet_none_or_zero _ amkt book fees hsell
  · unfold baseAmountToReceiveForSellingQuoteIncludingFee
    dsimp only
    rw [hopSellBase_empty q amkt book fees hbuy]
    rcases lt_or_eq_of_le hq with hq0 | hq0
    · rw [if_pos hq0]
      exact ⟨Or.inl rfl, fun _ => rfl⟩
    · rw [if_neg (by omega)]
      refine ⟨?_, fun h => absurd h (by omega)⟩
      cases ammState with
      | BondingCurve s =>
        obtain ⟨hvq, hrb⟩ := hwf
        right
        dsimp only
        rw [adjustExcludeDecimal_zero]
        have hz : bigintToScaledDecimal 0 market3.quoteDecimals = 0 := by
          unfold bigintToScaledDecimal
          rw [Int.cast_zero, zero_div]
        rw [hz, add_zero]
        have hvqne : bigintToScaledDecimal s.virtualQuoteReserves market3.quoteDecimals ≠ 0 := by
          unfold bigintToScaledDecimal
          apply ne_of_gt
          apply div_pos _ (by positivity)
          exact_mod_cast hvq
        rw [mul_div_cancel_left₀ _ hvqne, sub_self]
        have hzero : scaledDecimalToBigint 0 market3.baseDecimals = 0 := by
          unfold scaledDecimalToBigint
          rw [zero_mul, Int.floor_zero]
        rw [hzero]
        unfold minBigInt
        rw [if_pos hrb]
      | ConstantProduct s =>
        left
        dsimp only
        have hall : ∀ lp ∈ s.liquidityPools,
            baseAmountToRemoveToIncreasePoolQuoteByDelta lp
              (adjustQuoteToExcludeFeeDecimal 0 lp.feeRate) = none := by
          intro lp hlp
          rw [adjustExcludeDecimal_zero]
          exact baseAmountToRemove_zero_target lp (hwf lp hlp).1 (hwf lp hlp).2
        rw [foldl_none_acc s.liquidityPools 0 hall 0]
        rw [if_pos rfl]

/-- C6 counterexample: with an empty-book adapter and a constant-product
pool `(2, 2)` with zero fee, selling the strictly positive base amount 2
returns `some 0`, not `null`: the AMM hop's quote proceeds round to 0 and
the empty-book second hop then converts 0 quote into 0 base without
reporting missing liquidity. -/
theorem emptyBook_null_cex :
    quoteAmountMinusFeeToReceiveForSellingBase 2 ⟨⟨0⟩, ⟨0⟩⟩
      (AmmState.ConstantProduct ⟨[⟨2, 2, 0⟩]⟩)
      (some ⟨⟨⟨0⟩, ⟨0⟩⟩, ⟨[], []⟩, ⟨0, 0⟩⟩) = some 0 := by
  have hest : estimatePoolBaseLiquidityAdjustment ⟨2, 2, 0⟩ 2 = some ⟨2, 0, 0⟩ := by
    rw [estimate_eq_some_iff]
    refine ⟨by decide, by decide, ?_⟩
    simp only [show Int.tdiv ((2 : ℤ) * 2) (2 + 2) = 1 from by decide,
      calculateFeeDecimal_zero]
    norm_num
  have htr : cpPossibleSellTrades 2 ⟨[⟨2, 2, 0⟩]⟩ =
      [⟨⟨2, 2, 0⟩, 2, 0, 0, OrderSide.Sell⟩] := by
    unfold cpPossibleSellTrades
    simp [hest, absBigInt]
  have hbest : getCpBestSellEstimate 2 ⟨[⟨2, 2, 0⟩]⟩ =
      some ⟨⟨2, 2, 0⟩, 2, 0, 0, OrderSide.Sell⟩ := by
    unfold getCpBestSellEstimate
    rw [htr]
    norm_num
  unfold quoteAmountMinusFeeToReceiveForSellingBase
  rw [if_neg (by decide)]
  dsimp only
  rw [hbest]
  dsimp only
  rw [show absBigInt ((0 : ℤ) - 0) = 0 from by decide]
  unfold baseAmountToGetForQuoteAmountAtClobMarket
  dsimp only [List.map_nil, List.reverse_nil]
  unfold baseAmountToGetWalk
  rw [if_neg (by decide)]

/-- Witness for `emptyBook_composed_quotes` with an empty book, a
well-formed bonding curve `(virtualBase, virtualQuote) = (1, 1)` with no
real reserves, `n = 1`, `q = 0`. -/
theorem emptyBook_composed_quotes_witness :
    ((⟨[], []⟩ : OrderBook).buy = [] ∧ (⟨[], []⟩ : OrderBook).sell = [] ∧
     AmmWellFormed (AmmState.BondingCurve ⟨0, 1, 1, 0⟩) ∧ (0 : ℤ) ≤ 0) ∧
    ((quoteAmountRequiredForBuyingBaseIncludingFee 1 ⟨⟨0⟩, ⟨0⟩⟩
        (AmmState.BondingCurve ⟨0, 1, 1, 0⟩)
        (some ⟨⟨⟨0⟩, ⟨0⟩⟩, ⟨[], []⟩, ⟨0, 0⟩⟩) = none ∨
      quoteAmountRequiredForBuyingBaseIncludingFee 1 ⟨⟨0⟩, ⟨0⟩⟩
        (AmmState.BondingCurve ⟨0, 1, 1, 0⟩)
        (some ⟨⟨⟨0⟩, ⟨0⟩⟩, ⟨[], []⟩, ⟨0, 0⟩⟩) = some 0) ∧
     (quoteAmountMinusFeeToReceiveForSellingBase 1 ⟨⟨0⟩, ⟨0⟩⟩
        (AmmState.BondingCurve ⟨0, 1, 1, 0⟩)
        (some ⟨⟨⟨0⟩, ⟨0⟩⟩, ⟨[], []⟩, ⟨0, 0⟩⟩) = none ∨
      quoteAmountMinusFeeToReceiveForSellingBase 1 ⟨⟨0⟩, ⟨0⟩⟩
        (AmmState.BondingCurve ⟨0, 1, 1, 0⟩)
        (some ⟨⟨⟨0⟩, ⟨0⟩⟩, ⟨[], []⟩, ⟨0, 0⟩⟩) = some 0) ∧
     (baseAmountToReceiveForSellingQuoteIncludingFee 0 ⟨0, 0⟩
        (AmmState.BondingCurve ⟨0, 1, 1, 0⟩)
        (some ⟨⟨⟨0⟩, ⟨0⟩⟩, ⟨[], []⟩, ⟨0, 0⟩⟩) = none ∨
      baseAmountToReceiveForSellingQuoteIncludingFee 0 ⟨0, 0⟩
        (AmmState.BondingCurve ⟨0, 1, 1, 0⟩)
        (some ⟨⟨⟨0⟩, ⟨0⟩⟩, ⟨[], []⟩, ⟨0, 0⟩⟩) = some 0) ∧
     ((0 : ℤ) < 0 → baseAmountToReceiveForSellingQuoteIncludingFee 0 ⟨0, 0⟩
        (AmmState.BondingCurve ⟨0, 1, 1, 0⟩)
        (some ⟨⟨⟨0⟩, ⟨0⟩⟩, ⟨[], []⟩, ⟨0, 0⟩⟩) = none)) :=
  ⟨⟨rfl, rfl, ⟨by decide, by decide⟩, by decide⟩,
   emptyBook_composed_quotes 1 0 ⟨⟨0⟩, ⟨0⟩⟩ ⟨0, 0⟩ ⟨⟨0⟩, ⟨0⟩⟩ ⟨[], []⟩ ⟨0, 0⟩
     (AmmState.BondingCurve ⟨0, 1, 1, 0⟩) rfl rfl ⟨by decide, by decide⟩ (by decide)⟩
